import Mathlib

/-!
Verification of the connection-lifecycle manager of the echo service
(`src/server.rs`): the per-connection read/decode/echo/flush loop
(`Client::handle`), the accept loop (`Server::run`), the shared running
flag, the client registry, and `Server::stop`.

The concurrent Rust code is shallowly embedded: each loop is a function
over a finite trace of environment events (read outcomes, accept
outcomes, readings of the shared `is_running` flag).  A trace that runs
out of events while a loop is still iterating yields a distinguished
`pending` outcome, the model artifact for "the loop has not returned
within the observed trace".
-/

namespace EchoServer

/-- Kind of an I/O error, as `Client::handle` and `Server::run` distinguish
them: `ErrorKind::WouldBlock` versus any other kind (abstracted by a code). -/
inductive IoKind where
  | wouldBlock
  | other (code : Nat)
deriving DecidableEq, Repr

/-- The message codec consumed by sessions (the `EchoMessage` prost codec is
an external collaborator: `decode(bytes) -> Message | error`,
`encode(Message) -> bytes`; deterministic and stateless). -/
structure Codec (M : Type) where
  decode : List Nat → Option M
  encode : M → List Nat

/-- Outcome of one `self.stream.read(&mut buffer)` call: either the bytes
actually read (the empty list models `bytes_read == 0`, i.e. peer
disconnect) or an error of some kind. -/
inductive ReadRes where
  | ok (bytes : List Nat)
  | err (k : IoKind)
deriving DecidableEq, Repr

/-- One iteration of the environment as `Client::handle` sees it: the read
outcome, plus the outcome the stream would give to a `write_all`
(`none` = success) and to a `flush` in this iteration, should they happen. -/
structure IoEvent where
  read : ReadRes
  writeErr : Option IoKind
  flushErr : Option IoKind
deriving DecidableEq, Repr

/-- Result of `Client::handle`: `ok` models `return Ok(())` (clean
disconnect), `err k` models `return Err(e)`, `pending` is the trace
artifact for a loop still iterating when the event trace is exhausted. -/
inductive HandleRes where
  | ok
  | err (k : IoKind)
  | pending
deriving DecidableEq, Repr

/-- Embedding of `Client::handle` (src/server.rs lines 24-68): loop over
read events; a would-block read sleeps and retries; any other read error is
returned; a zero-byte read returns `Ok`; otherwise the bytes are decoded:
on decode failure the iteration is skipped (logged, no response); on
success the re-encoded message is written back and flushed, any write or
flush error being returned.  The second component collects the payloads
successfully passed to `write_all`. -/
def handle {M : Type} (c : Codec M) : List IoEvent → HandleRes × List (List Nat)
  | [] => (HandleRes.pending, [])
  | ev :: rest =>
    match ev.read with
    | ReadRes.err IoKind.wouldBlock => handle c rest
    | ReadRes.err (IoKind.other n) => (HandleRes.err (IoKind.other n), [])
    | ReadRes.ok bytes =>
      if bytes.isEmpty then (HandleRes.ok, [])
      else
        match c.decode bytes with
        | none => handle c rest
        | some m =>
          match ev.writeErr with
          | some k => (HandleRes.err k, [])
          | none =>
            match ev.flushErr with
            | some k => (HandleRes.err k, [c.encode m])
            | none =>
              let r := handle c rest
              (r.1, c.encode m :: r.2)

/-- A concrete executable codec used to evaluate the model on concrete
inputs: a valid wire form is a leading 1 followed by the content. -/
def sampleCodec : Codec (List Nat) where
  decode := fun bs =>
    match bs with
    | 1 :: rest => some rest
    | _ => none
  encode := fun m => 1 :: m

/-- Remove the first occurrence of `a`, as the spawned client thread does
with `position` + `remove` on the registry (src/server.rs lines 136-138);
a no-op when `a` is absent. -/
def removeFirst (l : List String) (a : String) : List String :=
  match l with
  | [] => []
  | x :: xs => if x = a then xs else x :: removeFirst xs a

/-- Whether the spawned per-client thread has exited its
`while is_running` loop. -/
inductive TaskStatus where
  | exited
  | stillRunning
deriving DecidableEq, Repr

/-- Embedding of the per-client thread spawned in `Server::run`
(src/server.rs lines 124-140): each trace element is one reading of the
shared `is_running` flag paired with the result the following
`client.handle()` call would produce (`none` = `Ok(())`, `some k` =
`Err`).  A false flag reading exits the loop before calling `handle`; an
`Err` from `handle` breaks; an `Ok` from `handle` continues the loop.
After the loop, the thread removes its address from the registry. -/
def clientThread (clients : List String) (addr : String) :
    List (Bool × Option IoKind) → List String × TaskStatus
  | [] => (clients, TaskStatus.stillRunning)
  | (flag, h) :: rest =>
    if flag then
      match h with
      | some _ => (removeFirst clients addr, TaskStatus.exited)
      | none => clientThread clients addr rest
    else (removeFirst clients addr, TaskStatus.exited)

/-- State of the `Server` struct (src/server.rs lines 71-76): the host the
listener was bound to, the port captured from `local_addr()` at creation,
the shared `is_running` flag, and the registry of client identity
strings. -/
structure ServerState where
  boundHost : String
  port : Nat
  isRunning : Bool
  clients : List String
deriving DecidableEq, Repr

/-- Embedding of `Server::new` (src/server.rs lines 80-96): bind succeeds
at `boundHost` with OS-assigned local port `localPort`; the port is
captured once, the flag starts false, the registry empty.  (A failing
bind returns the error to the caller and constructs no server; it is
outside this state model.) -/
def new (boundHost : String) (localPort : Nat) : ServerState :=
  { boundHost := boundHost, port := localPort, isRunning := false, clients := [] }

/-- Embedding of `Server::get_port` (src/server.rs lines 99-101). -/
def get_port (s : ServerState) : Nat := s.port

/-- What `Server::stop` does besides mutating state: attempt one wake-up
TCP connection to `host:port`, or log a warning because the server was
already stopped. -/
inductive StopAction where
  | wake (host : String) (port : Nat)
  | warnAlreadyStopped
deriving DecidableEq, Repr

/-- Embedding of `Server::stop` (src/server.rs lines 157-169): when the
flag reads true it is set to false and a connection to
`format!("127.0.0.1:{}", self.port)` is attempted (its success only
changes which line is logged); otherwise a warning is logged and nothing
changes. -/
def stop (s : ServerState) : ServerState × StopAction :=
  if s.isRunning then
    ({ s with isRunning := false }, StopAction.wake "127.0.0.1" s.port)
  else (s, StopAction.warnAlreadyStopped)

/-- Outcome of one `listener.accept()` call. -/
inductive AcceptRes where
  | conn (addr : String)
  | err (k : IoKind)
deriving DecidableEq, Repr

/-- How the accept loop of `Server::run` ended within the observed trace:
`stoppedOk` when a flag reading was false (the loop exits and `run`
returns `Ok`), `pending` when the trace was exhausted mid-loop. -/
inductive RunOutcome where
  | stoppedOk
  | pending
deriving DecidableEq, Repr

/-- Embedding of the accept loop of `Server::run` (src/server.rs lines
111-150): each trace element pairs a reading of the shared `is_running`
flag (an oracle, since `stop` may flip it concurrently) with the outcome
the `accept()` call would produce.  A false reading exits the loop; a
connection pushes the peer address onto the registry (and spawns the
client thread, modelled separately by `clientThread`); a would-block
error sleeps and retries; any other error is logged and the loop
continues. -/
def acceptLoop : ServerState → List (Bool × AcceptRes) → ServerState × RunOutcome
  | s, [] => (s, RunOutcome.pending)
  | s, (flag, a) :: rest =>
    if flag then
      match a with
      | AcceptRes.conn addr =>
        acceptLoop { s with clients := s.clients ++ [addr] } rest
      | AcceptRes.err _ => acceptLoop s rest
    else (s, RunOutcome.stoppedOk)

/-- Embedding of `Server::run` (src/server.rs lines 104-154): set the flag
true, put the listener in non-blocking mode (`nbErr` is that call's
outcome; an error propagates via `?`), then run the accept loop; when the
loop exits the function returns `Ok`. -/
def run (s : ServerState) (nbErr : Option IoKind) (iters : List (Bool × AcceptRes)) :
    ServerState × Except IoKind RunOutcome :=
  let s1 := { s with isRunning := true }
  match nbErr with
  | some k => (s1, Except.error k)
  | none =>
    let r := acceptLoop s1 iters
    (r.1, Except.ok r.2)

/-- Abstract registry/lifecycle trace for the whole system: a connection
is accepted (registry push, task spawned) or a session task ends (its
last act removes the address from the registry). -/
inductive SysEvent where
  | accept (addr : String)
  | sessionEnd (addr : String)
deriving DecidableEq, Repr

/-- Joint state of the registry (the server's `clients` vector) and the
multiset of addresses whose session tasks are alive. -/
structure SysState where
  registry : List String
  live : List String
deriving DecidableEq, Repr

/-- One system step: `accept` pushes the address onto the registry exactly
when the task is spawned (src/server.rs lines 117-118 and 124); a task's
end removes the first occurrence from the registry exactly when the task
finishes (lines 135-138). -/
def sysStep (s : SysState) (e : SysEvent) : SysState :=
  match e with
  | SysEvent.accept a => ⟨s.registry ++ [a], s.live ++ [a]⟩
  | SysEvent.sessionEnd a => ⟨removeFirst s.registry a, removeFirst s.live a⟩

/-- Run a system trace from the initial state (empty registry, no tasks). -/
def sysRun (es : List SysEvent) : SysState :=
  es.foldl sysStep ⟨[], []⟩

/-- Helper: while the flag keeps reading true and every `handle` call
returns `Ok` (the peer has disconnected), the client thread neither exits
nor touches the registry, however many flag checks elapse. -/
theorem clientThread_replicate_ok (cl : List String) (addr : String) :
    ∀ n, clientThread cl addr (List.replicate n (true, none)) =
      (cl, TaskStatus.stillRunning) := by
  intro n
  induction n with
  | zero => rfl
  | succ k ih => simpa [List.replicate_succ, clientThread] using ih

/-- Claim C1 (code bug): a zero-byte read makes `handle` return `Ok`, but
the spawned thread's `while is_running` loop treats `Ok` as "continue", so
while the server is running the session task of a cleanly disconnected
peer never terminates and its registry entry is never removed, for any
number of flag checks (the spec requires termination and removal within
one polling interval). -/
theorem clean_disconnect_task_persists :
    ∀ (n : Nat) (cl : List String) (addr : String),
      (handle sampleCodec [⟨ReadRes.ok [], none, none⟩]).1 = HandleRes.ok ∧
      clientThread cl addr (List.replicate n (true, none)) =
        (cl, TaskStatus.stillRunning) :=
  fun n cl addr => ⟨rfl, clientThread_replicate_ok cl addr n⟩

/-- Helper: from any state whose registry equals its live-task list, every
trace of accept/session-end events keeps them equal. -/
theorem sysStep_foldl_registry_eq_live (es : List SysEvent) :
    ∀ s : SysState, s.registry = s.live →
      (es.foldl sysStep s).registry = (es.foldl sysStep s).live := by
  induction es with
  | nil => intro s h; exact h
  | cons e rest ih =>
    intro s h
    cases e with
    | accept a => exact ih _ (by simp [sysStep, h])
    | sessionEnd a => exact ih _ (by simp [sysStep, h])

/-- Claim C2: in every state reachable from the initial one, the registry
coincides with the list of live session tasks — an address is in the
registry iff its session task is alive — because the address is pushed
exactly when the connection is accepted and removed exactly when its
session task ends. -/
theorem registry_iff_live_task (es : List SysEvent) (a : String) :
    (sysRun es).registry = (sysRun es).live ∧
    (a ∈ (sysRun es).registry ↔ a ∈ (sysRun es).live) := by
  have h : (sysRun es).registry = (sysRun es).live :=
    sysStep_foldl_registry_eq_live es ⟨[], []⟩ rfl
  exact ⟨h, by rw [h]⟩

/-- Claim C3: a false reading of the running flag makes the accept loop
exit at once — the remaining trace is ignored, so `accept` is never called
again — and makes a session's `while is_running` loop exit at that check,
whatever `handle` would have returned. -/
theorem stopped_flag_halts_loops (s : ServerState) (e : AcceptRes)
    (rest : List (Bool × AcceptRes)) (cl : List String) (addr : String)
    (h : Option IoKind) (rest2 : List (Bool × Option IoKind)) :
    acceptLoop s ((false, e) :: rest) = (s, RunOutcome.stoppedOk) ∧
    clientThread cl addr ((false, h) :: rest2) =
      (removeFirst cl addr, TaskStatus.exited) :=
  ⟨rfl, rfl⟩

/-- Claim C5 counterexample: for a running server bound at host
"10.0.0.7", `stop` attempts its wake-up connection to 127.0.0.1, which is
not the bound address. -/
theorem stop_wake_not_bound_host :
    (stop ⟨"10.0.0.7", 4000, true, []⟩).2 = StopAction.wake "127.0.0.1" 4000 ∧
    StopAction.wake "127.0.0.1" 4000 ≠ StopAction.wake "10.0.0.7" 4000 :=
  ⟨rfl, by decide⟩

/-- Claim C5 (amended): if the server is running, `stop` sets the flag to
false and attempts one wake-up connection to 127.0.0.1 at the stored
bound port; if it is already stopped, `stop` only logs a warning and
changes no state. -/
theorem stop_behavior (host : String) (p : Nat) (cl : List String) :
    stop ⟨host, p, true, cl⟩ =
      (⟨host, p, false, cl⟩, StopAction.wake "127.0.0.1" p) ∧
    stop ⟨host, p, false, cl⟩ =
      (⟨host, p, false, cl⟩, StopAction.warnAlreadyStopped) :=
  ⟨rfl, rfl⟩

/-- Claim C9: whatever host the listener was bound to, the wake-up
connection of `stop` targets the hard-coded loopback host 127.0.0.1 at the
stored port: the action is the same for any two bound hosts. -/
theorem stop_wakeup_hardcoded_loopback (host host2 : String) (p : Nat)
    (cl cl2 : List String) :
    (stop ⟨host, p, true, cl⟩).2 = StopAction.wake "127.0.0.1" p ∧
    (stop ⟨host, p, true, cl⟩).2 = (stop ⟨host2, p, true, cl2⟩).2 :=
  ⟨rfl, rfl⟩

/-- Helper: the accept loop never changes the stored port. -/
theorem acceptLoop_preserves_port (iters : List (Bool × AcceptRes)) :
    ∀ s : ServerState, ((acceptLoop s iters).1).port = s.port := by
  induction iters with
  | nil => intro s; rfl
  | cons p rest ih =>
    intro s
    obtain ⟨flag, a⟩ := p
    cases flag with
    | false => rfl
    | true =>
      cases a with
      | conn addr =>
        simpa [acceptLoop] using ih { s with clients := s.clients ++ [addr] }
      | err k => simpa [acceptLoop] using ih s

/-- Claim C10: the port is captured from the listener's local address at
creation and never mutated: `get_port` reads that field, and both `run`
(for any non-blocking-mode outcome and any accept trace) and `stop` leave
it unchanged. -/
theorem port_never_mutated (host : String) (p : Nat) (s : ServerState)
    (nb : Option IoKind) (iters : List (Bool × AcceptRes)) :
    (new host p).port = p ∧
    get_port s = s.port ∧
    ((run s nb iters).1).port = s.port ∧
    ((stop s).1).port = s.port := by
  refine ⟨rfl, rfl, ?_, ?_⟩
  · cases nb with
    | some k => rfl
    | none =>
      simpa [run] using acceptLoop_preserves_port iters { s with isRunning := true }
  · cases hr : s.isRunning <;> simp [stop, hr]

/-- Helper: a read that decodes, with successful write and flush, prepends
exactly the re-encoded message to the outputs and continues the loop. -/
theorem handle_echo_step {M : Type} (c : Codec M) (bytes : List Nat) (m : M)
    (rest : List IoEvent) (hdec : c.decode bytes = some m) (hne : bytes ≠ []) :
    handle c (⟨ReadRes.ok bytes, none, none⟩ :: rest) =
      ((handle c rest).1, c.encode m :: (handle c rest).2) := by
  cases bytes with
  | nil => exact absurd rfl hne
  | cons b bs => simp [handle, hdec]

/-- Claim C4: when the bytes of one read decode to `M` and the write and
flush succeed, the session writes back exactly `encode M` in full (it is
the next output on the wire) and continues; assuming the codec's
decode-encode round trip, the next bytes the peer receives decode to a
message equal to `M`. -/
theorem echo_round_trip {M : Type} (c : Codec M) (bytes : List Nat) (m : M)
    (rest : List IoEvent) (hdec : c.decode bytes = some m) (hne : bytes ≠ [])
    (hrt : c.decode (c.encode m) = some m) :
    (handle c (⟨ReadRes.ok bytes, none, none⟩ :: rest)).2 =
      c.encode m :: (handle c rest).2 ∧
    (handle c (⟨ReadRes.ok bytes, none, none⟩ :: rest)).1 = (handle c rest).1 ∧
    c.decode ((handle c (⟨ReadRes.ok bytes, none, none⟩ :: rest)).2.headI) =
      some m := by
  rw [handle_echo_step c bytes m rest hdec hne]
  exact ⟨rfl, rfl, by simpa using hrt⟩

/-- Witness for C4 at the sample codec: the wire form `[1, 5]` decodes to
the message `[5]`, is echoed as `[1, 5]`, and decodes back to `[5]`. -/
theorem echo_round_trip_witness :
    (handle sampleCodec [⟨ReadRes.ok [1, 5], none, none⟩]).2 =
      sampleCodec.encode [5] :: (handle sampleCodec []).2 ∧
    (handle sampleCodec [⟨ReadRes.ok [1, 5], none, none⟩]).1 =
      (handle sampleCodec []).1 ∧
    sampleCodec.decode
        ((handle sampleCodec [⟨ReadRes.ok [1, 5], none, none⟩]).2.headI) =
      some [5] :=
  echo_round_trip sampleCodec [1, 5] [5] [] rfl (by decide) rfl

/-- Claim C6: a read whose bytes fail to decode produces no response and
leaves the session exactly as if the iteration had not happened (the
malformed bytes are discarded, whatever the write/flush environment would
have done), and a subsequent valid message on the same connection is
still echoed. -/
theorem decode_failure_skipped {M : Type} (c : Codec M) (bad good : List Nat)
    (m : M) (w f : Option IoKind) (rest : List IoEvent)
    (hbad : c.decode bad = none) (hbne : bad ≠ [])
    (hgood : c.decode good = some m) (hgne : good ≠ []) :
    handle c (⟨ReadRes.ok bad, w, f⟩ :: rest) = handle c rest ∧
    handle c [⟨ReadRes.ok bad, none, none⟩, ⟨ReadRes.ok good, none, none⟩] =
      (HandleRes.pending, [c.encode m]) := by
  cases bad with
  | nil => exact absurd rfl hbne
  | cons b bs =>
    cases good with
    | nil => exact absurd rfl hgne
    | cons g gs =>
      constructor
      · simp [handle, hbad]
      · simp [handle, hbad, hgood]

/-- Witness for C6 at the sample codec: `[2]` does not decode and is
dropped without a response; the following valid `[1, 7]` is echoed. -/
theorem decode_failure_skipped_witness :
    handle sampleCodec [⟨ReadRes.ok [2], none, none⟩] = handle sampleCodec [] ∧
    handle sampleCodec
        [⟨ReadRes.ok [2], none, none⟩, ⟨ReadRes.ok [1, 7], none, none⟩] =
      (HandleRes.pending, [sampleCodec.encode [7]]) :=
  decode_failure_skipped sampleCodec [2] [1, 7] [7] none none [] rfl (by decide)
    rfl (by decide)

/-- Claim C7 counterexample: an iteration whose only failure is a write
error of would-block kind — the read succeeds and its bytes decode — still
makes `handle` return an error, so `handle` does not return errors only
for failures of a kind other than would-block. -/
theorem handle_err_on_wouldblock_write :
    (handle sampleCodec [⟨ReadRes.ok [1, 5], some IoKind.wouldBlock, none⟩]).1 =
      HandleRes.err IoKind.wouldBlock := rfl

/-- An environment iteration with no hard failure: the read does not fail
with a non-would-block error, and neither write nor flush fails. -/
def benign (ev : IoEvent) : Bool :=
  (match ev.read with
   | ReadRes.err (IoKind.other _) => false
   | _ => true) && ev.writeErr.isNone && ev.flushErr.isNone

/-- Helper: over a trace with no hard failure, `handle` never returns an
error. -/
theorem handle_no_err_of_benign {M : Type} (c : Codec M) :
    ∀ events : List IoEvent, (∀ ev ∈ events, benign ev = true) →
      ∀ k, (handle c events).1 ≠ HandleRes.err k := by
  intro events
  induction events with
  | nil => intro _ k; simp [handle]
  | cons ev rest ih =>
    intro hb k
    have hev := hb ev (List.mem_cons_self ev rest)
    have hrest := fun e he => hb e (List.mem_cons_of_mem ev he)
    obtain ⟨r, w, f⟩ := ev
    cases r with
    | err kk =>
      cases kk with
      | wouldBlock => simpa [handle] using ih hrest k
      | other n => simp [benign] at hev
    | ok bytes =>
      cases w with
      | some kw => simp [benign] at hev
      | none =>
        cases f with
        | some kf => simp [benign] at hev
        | none =>
          cases hbe : bytes.isEmpty with
          | true => simp [handle, hbe]
          | false =>
            cases hd : c.decode bytes with
            | none => simpa [handle, hbe, hd] using ih hrest k
            | some m =>
              simp [handle, hbe, hd]
              exact ih hrest k

/-- Claim C7 (amended): `handle` returns an error exactly when a read
fails with a non-would-block error or a write or flush fails with any
error, would-block included; such errors are never retried (the rest of
the trace is ignored); a would-block read is retried after a brief sleep;
a zero-byte read makes `handle` return success. -/
theorem handle_error_characterization {M : Type} (c : Codec M) (n : Nat)
    (k : IoKind) (bytes : List Nat) (m : M) (w f : Option IoKind)
    (rest events : List IoEvent)
    (hdec : c.decode bytes = some m) (hne : bytes ≠ [])
    (hbenign : ∀ ev ∈ events, benign ev = true) :
    handle c (⟨ReadRes.err (IoKind.other n), w, f⟩ :: rest) =
      (HandleRes.err (IoKind.other n), []) ∧
    handle c (⟨ReadRes.err IoKind.wouldBlock, w, f⟩ :: rest) = handle c rest ∧
    handle c (⟨ReadRes.ok [], w, f⟩ :: rest) = (HandleRes.ok, []) ∧
    (handle c (⟨ReadRes.ok bytes, some k, f⟩ :: rest)).1 = HandleRes.err k ∧
    (handle c (⟨ReadRes.ok bytes, none, some k⟩ :: rest)).1 = HandleRes.err k ∧
    (∀ k2, (handle c events).1 ≠ HandleRes.err k2) := by
  refine ⟨rfl, rfl, rfl, ?_, ?_, handle_no_err_of_benign c events hbenign⟩
  · cases bytes with
    | nil => exact absurd rfl hne
    | cons b bs => simp [handle, hdec]
  · cases bytes with
    | nil => exact absurd rfl hne
    | cons b bs => simp [handle, hdec]

/-- Witness for C7 (amended) at the sample codec. -/
theorem handle_error_characterization_witness :
    handle sampleCodec [⟨ReadRes.err (IoKind.other 3), none, none⟩] =
      (HandleRes.err (IoKind.other 3), []) ∧
    handle sampleCodec [⟨ReadRes.err IoKind.wouldBlock, none, none⟩] =
      handle sampleCodec [] ∧
    handle sampleCodec [⟨ReadRes.ok [], none, none⟩] = (HandleRes.ok, []) ∧
    (handle sampleCodec [⟨ReadRes.ok [1, 5], some (IoKind.other 7), none⟩]).1 =
      HandleRes.err (IoKind.other 7) ∧
    (handle sampleCodec [⟨ReadRes.ok [1, 5], none, some (IoKind.other 7)⟩]).1 =
      HandleRes.err (IoKind.other 7) ∧
    (∀ k2, (handle sampleCodec [⟨ReadRes.ok [1, 9], none, none⟩]).1 ≠
      HandleRes.err k2) :=
  handle_error_characterization sampleCodec 3 (IoKind.other 7) [1, 5] [5] none
    none [] [⟨ReadRes.ok [1, 9], none, none⟩] rfl (by decide) (by decide)

/-- Helper: while every flag reading is true the accept loop never exits
within the trace. -/
theorem acceptLoop_pending_of_all_true (iters : List (Bool × AcceptRes)) :
    ∀ s : ServerState, (∀ p ∈ iters, p.1 = true) →
      (acceptLoop s iters).2 = RunOutcome.pending := by
  induction iters with
  | nil => intro s _; rfl
  | cons p rest ih =>
    intro s hall
    obtain ⟨flag, a⟩ := p
    have hf : flag = true := hall (flag, a) (List.mem_cons_self _ _)
    subst hf
    have hrest := fun q hq => hall q (List.mem_cons_of_mem _ hq)
    cases a with
    | conn addr => simpa [acceptLoop] using ih _ hrest
    | err kk => simpa [acceptLoop] using ih _ hrest

/-- Claim C8: a non-would-block accept error is logged and the loop
continues with unchanged state (a would-block accept likewise continues);
as long as the flag reads true the loop never ends, so it ends only on a
false flag reading; and the value `run` returns when its loop ends is
always `Ok`. -/
theorem accept_error_nonfatal (s s2 s3 : ServerState) (n : Nat)
    (rest iters iters2 : List (Bool × AcceptRes))
    (hall : ∀ p ∈ iters, p.1 = true) :
    acceptLoop s ((true, AcceptRes.err (IoKind.other n)) :: rest) =
      acceptLoop s rest ∧
    acceptLoop s ((true, AcceptRes.err IoKind.wouldBlock) :: rest) =
      acceptLoop s rest ∧
    (acceptLoop s2 iters).2 = RunOutcome.pending ∧
    (run s3 none iters2).2 =
      Except.ok (acceptLoop { s3 with isRunning := true } iters2).2 :=
  ⟨rfl, rfl, acceptLoop_pending_of_all_true iters s2 hall, rfl⟩

/-- Witness for C8 at concrete states and traces. -/
theorem accept_error_nonfatal_witness :
    acceptLoop (new "127.0.0.1" 8080)
        ((true, AcceptRes.err (IoKind.other 5)) :: []) =
      acceptLoop (new "127.0.0.1" 8080) [] ∧
    acceptLoop (new "127.0.0.1" 8080)
        ((true, AcceptRes.err IoKind.wouldBlock) :: []) =
      acceptLoop (new "127.0.0.1" 8080) [] ∧
    (acceptLoop (new "127.0.0.1" 8080) [(true, AcceptRes.conn "peer")]).2 =
      RunOutcome.pending ∧
    (run (new "127.0.0.1" 8080) none [(false, AcceptRes.err IoKind.wouldBlock)]).2 =
      Except.ok
        (acceptLoop { new "127.0.0.1" 8080 with isRunning := true }
          [(false, AcceptRes.err IoKind.wouldBlock)]).2 :=
  accept_error_nonfatal (new "127.0.0.1" 8080) (new "127.0.0.1" 8080)
    (new "127.0.0.1" 8080) 5 [] [(true, AcceptRes.conn "peer")]
    [(false, AcceptRes.err IoKind.wouldBlock)] (by decide)

end EchoServer
